import Mathlib

/-!
Verification of the cache-aware ingestion-and-retrieval pipeline.

The repository ships the pipeline as design documentation plus a VSCode
extension.  The extension code (`vscode-extension/src/extension.ts`) is
embedded directly.  The pipeline components (CacheStore, ChangeWatcher,
Chunker, VectorIndex, HybridSearchEngine, ContextBuilder) have no
implementation files in the repository, so they are modelled from the
specification text, each marked `Modelled from the spec:` in its doc
comment.  Machine integers are modelled as `Nat`/`Int`, scores as `ℚ`,
document text as a list of tokens, and persisted state as explicit
association lists.
-/

/-- Modelled from the spec: a `RemoteFile` snapshot
`{id, name, remote-checksum, remote-modified-time}`, the source of truth
for freshness comparisons. -/
structure RemoteFile where
  id : String
  name : String
  remoteChecksum : Nat
  remoteModifiedTime : Nat
deriving Repr, DecidableEq

/-- Modelled from the spec: a `CacheEntry`
`{file-id, local-path, checksum, fetched-at, ttl-expires-at}`, one entry
per cached file. -/
structure CacheEntry where
  fileId : String
  localPath : String
  checksum : Nat
  fetchedAt : Nat
  ttlExpiresAt : Nat
deriving Repr, DecidableEq

/-- Modelled from the spec: the `Manifest` is a mapping file-id →
`CacheEntry`, persisted as a whole; keys are the `fileId` fields. -/
abbrev Manifest := List CacheEntry

/-- Lookup of a file-id in the manifest (first entry with that key). -/
def Manifest.lookup : Manifest → String → Option CacheEntry
  | [], _ => none
  | e :: m, id => if e.fileId = id then some e else Manifest.lookup m id

/-- Identifiers appearing in a remote listing, in listing order. -/
def remoteIds (remote : List RemoteFile) : List String :=
  remote.map RemoteFile.id

/-- Identifiers appearing in a manifest, in manifest order. -/
def manifestIds (m : Manifest) : List String :=
  m.map CacheEntry.fileId

/-- Result type of `ChangeWatcher.diff`: the four classes of file-ids. -/
structure DiffResult where
  new : List String
  updated : List String
  deleted : List String
  unchanged : List String
deriving Repr, DecidableEq

namespace ChangeWatcher

/-- Modelled from the spec: `ChangeWatcher.diff(remote-listing, manifest)`.
A remote file is `unchanged` if a `CacheEntry` exists and the remote
checksum equals the entry checksum, `updated` if an entry exists with a
different checksum, `new` if no entry exists; a file-id is `deleted` if a
`CacheEntry` exists with no matching remote file in the listing.  Pure
function of its two inputs. -/
def diff (remote : List RemoteFile) (m : Manifest) : DiffResult where
  new := (remote.filter (fun f => (Manifest.lookup m f.id).isNone)).map RemoteFile.id
  updated := (remote.filter (fun f =>
    match Manifest.lookup m f.id with
    | some e => e.checksum != f.remoteChecksum
    | none => false)).map RemoteFile.id
  deleted := (m.filter (fun e => remote.all (fun f => f.id != e.fileId))).map CacheEntry.fileId
  unchanged := (remote.filter (fun f =>
    match Manifest.lookup m f.id with
    | some e => e.checksum == f.remoteChecksum
    | none => false)).map RemoteFile.id

end ChangeWatcher

/-- State of a `CacheStore`: the on-disk cache files (path ↦ bytes) and
the manifest. -/
structure CacheState where
  files : List (String × List Nat)
  manifest : Manifest
deriving Repr, DecidableEq

/-- Lookup of a path in the on-disk cache files. -/
def lookupBytes : List (String × List Nat) → String → Option (List Nat)
  | [], _ => none
  | (p, b) :: fs, path => if p = path then some b else lookupBytes fs path

namespace CacheStore

/-- Modelled from the spec: `is-fresh(file-id) -> bool`, true iff an
entry exists and `now < ttl-expires-at`. -/
def isFresh (s : CacheState) (now : Nat) (id : String) : Bool :=
  match Manifest.lookup s.manifest id with
  | some e => decide (now < e.ttlExpiresAt)
  | none => false

/-- Content-addressed path used for a file's cached bytes. -/
def pathFor (id : String) (checksum : Nat) : String :=
  id ++ ":" ++ toString checksum

/-- Durable write of bytes to a content-addressed path; an existing
binding for the path is kept (the path encodes the checksum, so the
bytes stored there are the same content). -/
def writeBytes (fs : List (String × List Nat)) (path : String) (bytes : List Nat) :
    List (String × List Nat) :=
  match lookupBytes fs path with
  | some _ => fs
  | none => (path, bytes) :: fs

/-- Manifest entry installed by a completed `put`. -/
def newEntry (id : String) (checksum now ttl : Nat) : CacheEntry where
  fileId := id
  localPath := pathFor id checksum
  checksum := checksum
  fetchedAt := now
  ttlExpiresAt := now + ttl

/-- Replacement of any prior entry for the same id by a new entry. -/
def manifestUpsert (m : Manifest) (e : CacheEntry) : Manifest :=
  e :: m.filter (fun e2 => e2.fileId != e.fileId)

/-- Modelled from the spec: the state reached after executing the first
`n` steps of `put(file-id, bytes, checksum)`.  Step 1 durably writes the
bytes; step 2 updates the manifest.  `put` itself is `putUpTo · 2`. -/
def putUpTo (s : CacheState) (id : String) (bytes : List Nat) (checksum now ttl : Nat) :
    Nat → CacheState
  | 0 => s
  | 1 => { s with files := writeBytes s.files (pathFor id checksum) bytes }
  | _ + 2 =>
    { files := writeBytes s.files (pathFor id checksum) bytes
      manifest := manifestUpsert s.manifest (newEntry id checksum now ttl) }

/-- Modelled from the spec: `put(file-id, bytes, checksum) -> CacheEntry`,
overwriting any prior entry for the same id; the manifest is updated only
after the bytes are durably written. -/
def put (s : CacheState) (id : String) (bytes : List Nat) (checksum now ttl : Nat) :
    CacheState × CacheEntry :=
  (putUpTo s id bytes checksum now ttl 2, newEntry id checksum now ttl)

/-- Modelled from the spec: `get(file-id) -> bytes | absent`, reading
through the manifest. -/
def get (s : CacheState) (id : String) : Option (List Nat) :=
  match Manifest.lookup s.manifest id with
  | some e => lookupBytes s.files e.localPath
  | none => none

/-- Consistency of a cache state relative to a checksum function: every
manifest entry has backing bytes at its local path, and the entry's
checksum matches those bytes. -/
def consistentWith (csum : List Nat → Nat) (s : CacheState) : Prop :=
  ∀ e ∈ s.manifest, ∃ b, lookupBytes s.files e.localPath = some b ∧ csum b = e.checksum

end CacheStore

namespace Chunker

/-- Parameters of `Chunker.split`: `max-tokens`, `overlap-tokens`,
`min-tokens`. -/
structure ChunkParams where
  maxTokens : Nat
  overlapTokens : Nat
  minTokens : Nat
deriving Repr, DecidableEq

/-- Modelled from the spec: a `Chunk`
`{chunk-id, document-id, sequence-index, text, token-count, page-number,
char-offset-span}`.  Text is a list of tokens; offsets are token offsets
into the input.  Page numbers come from extraction, which is outside the
chunker's inputs, so `split` records page 0. -/
structure Chunk where
  chunkId : String
  documentId : String
  sequenceIndex : Nat
  text : List String
  tokenCount : Nat
  pageNumber : Nat
  charOffsetSpan : Nat × Nat
deriving Repr, DecidableEq

/-- Paragraph boundary: a blank-line token. -/
def isParaBreak (t : String) : Bool :=
  t == "\n\n"

/-- Sentence boundary: a token ending in a full stop. -/
def isSentenceEnd (t : String) : Bool :=
  t.data.getLast? == some '.'

/-- Structure-preserving split: cut after every token satisfying `p`,
keeping the boundary token at the end of its segment, so that the
segments concatenate back to the input. -/
def splitOnAfter (p : String → Bool) : List String → List (List String)
  | [] => []
  | t :: ts =>
    if p t then [t] :: splitOnAfter p ts
    else
      match splitOnAfter p ts with
      | [] => [[t]]
      | seg :: segs => (t :: seg) :: segs

/-- Modelled from the spec: segment text into paragraph units first; a
single paragraph exceeding `max-tokens` is hard-split on sentence
boundaries. -/
def pieces (P : ChunkParams) (ts : List String) : List (List String) :=
  (splitOnAfter isParaBreak ts).flatMap (fun para =>
    if P.maxTokens < para.length then splitOnAfter isSentenceEnd para else [para])

/-- Greedy accumulation: paragraphs (or sentence pieces) are appended to
the current chunk until adding the next one would exceed `max-tokens`. -/
def packAux (maxT : Nat) (cur : List String) : List (List String) → List (List String)
  | [] => if cur.isEmpty then [] else [cur]
  | p :: ps =>
    if cur.isEmpty then packAux maxT p ps
    else if maxT < cur.length + p.length then cur :: packAux maxT p ps
    else packAux maxT (cur ++ p) ps

/-- Merging of a trailing remainder shorter than `min-tokens` into the
previous chunk. -/
def mergeTailAux (minT : Nat) (prev : List String) : List (List String) → List (List String)
  | [] => [prev]
  | [last] => if last.length < minT then [prev ++ last] else [prev, last]
  | s :: rest => prev :: mergeTailAux minT s rest

/-- Merging applied to a whole segment list. -/
def mergeTail (minT : Nat) : List (List String) → List (List String)
  | [] => []
  | s :: rest => mergeTailAux minT s rest

/-- Trailing `ov` tokens of a chunk (the whole chunk when shorter). -/
def tailTokens (ov : Nat) (c : List String) : List String :=
  c.drop (c.length - ov)

/-- Each chunk after the first re-includes the trailing `overlap-tokens`
worth of text from the previous chunk. -/
def addOverlapAux (ov : Nat) (prev : List String) : List (List String) → List (List String)
  | [] => []
  | s :: rest => (tailTokens ov prev ++ s) :: addOverlapAux ov (tailTokens ov prev ++ s) rest

/-- Overlap applied to a whole segment list. -/
def addOverlap (ov : Nat) : List (List String) → List (List String)
  | [] => []
  | s :: rest => s :: addOverlapAux ov s rest

/-- Chunk texts produced by the splitting algorithm. -/
def chunkTexts (P : ChunkParams) (ts : List String) : List (List String) :=
  addOverlap P.overlapTokens (mergeTail P.minTokens (packAux P.maxTokens [] (pieces P ts)))

/-- Modelled from the spec:
`split(text, max-tokens, overlap-tokens, min-tokens)` returns the ordered
chunk sequence, with dense sequence indices starting at 0 and token
offset spans relative to the input. -/
def split (docId : String) (P : ChunkParams) (ts : List String) : List Chunk :=
  let base := mergeTail P.minTokens (packAux P.maxTokens [] (pieces P ts))
  let texts := addOverlap P.overlapTokens base
  let ends := ((base.map List.length).scanl (· + ·) 0).tail
  (texts.zip ends).enum.map (fun q =>
    { chunkId := docId ++ "#" ++ toString q.1
      documentId := docId
      sequenceIndex := q.1
      text := q.2.1
      tokenCount := q.2.1.length
      pageNumber := 0
      charOffsetSpan := (q.2.2 - q.2.1.length, q.2.2) })

/-- Concatenation of chunk texts dropping exactly `ov` leading tokens
from every chunk after the first (the reconstruction procedure named by
the round-trip claim). -/
def concatDropExact (ov : Nat) : List (List String) → List String
  | [] => []
  | c :: cs => c ++ (cs.map (List.drop ov)).flatten

/-- Concatenation of chunk texts dropping from each chunk after the
first the overlap it actually re-includes: `overlap-tokens` tokens, or
the whole previous chunk's length when that chunk is shorter. -/
def concatDropOverlapAux (ov : Nat) (prev : List String) : List (List String) → List String
  | [] => []
  | c :: cs => c.drop (min ov prev.length) ++ concatDropOverlapAux ov c cs

/-- Reconstruction procedure for the amended round-trip property. -/
def concatDropOverlap (ov : Nat) : List (List String) → List String
  | [] => []
  | c :: cs => c ++ concatDropOverlapAux ov c cs

end Chunker

/-- Modelled from the spec: a `SearchResult`
`{chunk-id, text, score (0..1), source-metadata, rank}`, produced per
query.  Text is the chunk's token list. -/
structure SearchResult where
  chunkId : String
  text : List String
  score : ℚ
  sourceMeta : String
  rank : Nat
deriving Repr, DecidableEq

/-- Source citation recorded in a `Context`, carrying the truncation
flag for the single-chunk-overflow fallback. -/
structure Citation where
  chunkId : String
  sourceMeta : String
  truncated : Bool
deriving Repr, DecidableEq

/-- Modelled from the spec: a `Context`
`{ordered sequence of included chunk texts, total-token-count,
source-citations}`, immutable once produced. -/
structure Context where
  chunks : List (List String)
  totalTokenCount : Nat
  sourceCitations : List Citation
deriving Repr, DecidableEq

namespace ContextBuilder

/-- Greedy walk in rank order: a chunk is included only if its full text
fits the remaining budget and it is not a near-duplicate of an included
chunk; otherwise it is skipped and the walk continues. -/
def buildAux (maxT : Nat) (isDup : List String → List String → Bool)
    (included : List (List String)) (used : Nat) : List SearchResult → Context
  | [] => { chunks := included, totalTokenCount := used, sourceCitations := [] }
  | r :: rest =>
    if included.any (fun c => isDup r.text c) then buildAux maxT isDup included used rest
    else if used + r.text.length ≤ maxT then
      let ctx := buildAux maxT isDup (included ++ [r.text]) (used + r.text.length) rest
      { ctx with sourceCitations := ⟨r.chunkId, r.sourceMeta, false⟩ :: ctx.sourceCitations }
    else buildAux maxT isDup included used rest

/-- Modelled from the spec: `ContextBuilder.build(query, results,
max-tokens)`.  Results are walked in rank order under a running token
budget; if the single highest-ranked chunk alone exceeds `max-tokens` it
is truncated to the budget and flagged in the source citations.  The
near-duplicate test is a parameter because the spec leaves its threshold
open (§9). -/
def build (results : List SearchResult) (maxT : Nat)
    (isDup : List String → List String → Bool) : Context :=
  match results with
  | [] => { chunks := [], totalTokenCount := 0, sourceCitations := [] }
  | r :: rest =>
    if maxT < r.text.length then
      let ctx := buildAux maxT isDup [r.text.take maxT] maxT rest
      { ctx with sourceCitations := ⟨r.chunkId, r.sourceMeta, true⟩ :: ctx.sourceCitations }
    else buildAux maxT isDup [] 0 (r :: rest)

end ContextBuilder

namespace HybridSearchEngine

/-- Semantic candidate handed to the hybrid engine: a chunk together
with the semantic score reported for it by the vector search, plus the
recency signal used by the rerank pass. -/
structure Candidate where
  chunkId : String
  text : List String
  source : String
  semScore : ℚ
  recency : ℚ
deriving Repr, DecidableEq

/-- Modelled from the spec: lexical match over the candidate population,
scoring by token-overlap ratio between query tokens and chunk tokens. -/
def lexScore (query text : List String) : ℚ :=
  if query.length = 0 then 0
  else ((query.filter (fun t => text.contains t)).length : ℚ) / (query.length : ℚ)

/-- Modelled from the spec:
`combined = semantic-weight * semantic-score + (1 - semantic-weight) * lexical-score`. -/
def combinedScore (w sem lex : ℚ) : ℚ :=
  w * sem + (1 - w) * lex

/-- Ranking relation of step (d): descending combined score, ties broken
by lexicographic chunk-id. -/
def hsRel (x y : Candidate × ℚ) : Prop :=
  y.2 < x.2 ∨ (x.2 = y.2 ∧ x.1.chunkId ≤ y.1.chunkId)

instance : DecidableRel hsRel := fun x y => by
  unfold hsRel
  infer_instance

/-- Rerank relation of step (e): the secondary signal (recency) reorders
results only within equal combined scores, so the final ranking still
reflects the combined formula. -/
def rerankRel (x y : Candidate × ℚ) : Prop :=
  y.2 < x.2 ∨ (x.2 = y.2 ∧ (y.1.recency < x.1.recency ∨
    (x.1.recency = y.1.recency ∧ x.1.chunkId ≤ y.1.chunkId)))

instance : DecidableRel rerankRel := fun x y => by
  unfold rerankRel
  infer_instance

/-- Modelled from the spec: `search(query, top-k, semantic-weight)` over
the filtered candidate population: each candidate is scored with the
combined formula, sorted descending with the chunk-id tie-break, the top
`top-k` are taken, and the rerank pass reorders them by the secondary
signal within equal combined scores.  Ranks are assigned densely from
0. -/
def search (query : List String) (k : Nat) (w : ℚ) (cands : List Candidate) :
    List SearchResult :=
  (List.insertionSort rerankRel
      ((List.insertionSort hsRel
        (cands.map (fun c => (c, combinedScore w c.semScore (lexScore query c.text))))).take
        k)).enum.map (fun q =>
    { chunkId := q.2.1.chunkId
      text := q.2.1.text
      score := q.2.2
      sourceMeta := q.2.1.source
      rank := q.1 })

end HybridSearchEngine

namespace VectorIndex

/-- Dot product of two rational vectors. -/
def dot (u v : List ℚ) : ℚ :=
  (List.zipWith (· * ·) u v).sum

/-- Squared Euclidean norm of a rational vector. -/
def normSq (v : List ℚ) : ℚ :=
  dot v v

/-- Modelled from the spec: an `EmbeddedChunk`, a chunk plus its vector
and a metadata map. -/
structure EmbeddedChunk where
  chunkId : String
  seqIndex : Nat
  vector : List ℚ
  metadata : List (String × String)
deriving Repr, DecidableEq

/-- Modelled from the spec: the vector index stores chunk vectors; the
dimension `D` is fixed at index creation. -/
structure Index where
  dim : Nat
  entries : List EmbeddedChunk
deriving Repr, DecidableEq

/-- Error raised by `add` on a vector of the wrong dimension. -/
inductive IndexError where
  | dimensionMismatch
deriving Repr, DecidableEq

/-- Modelled from the spec: `add(EmbeddedChunk[])`, batched, upserting
by chunk-id; a vector whose dimension differs from `D` fails the whole
batch with a DimensionMismatch error. -/
def add (idx : Index) (batch : List EmbeddedChunk) : Except IndexError Index :=
  if batch.all (fun c => c.vector.length == idx.dim) then
    .ok { idx with
          entries := batch.foldl
            (fun es c => c :: es.filter (fun e => e.chunkId != c.chunkId)) idx.entries }
  else .error .dimensionMismatch

/-- Cosine-order comparison `cos(q,a) ≥ cos(q,b)` expressed without
square roots: signs of the dot products split the cases, and within a
sign class the squared cosines are compared by cross-multiplication with
the squared norms. -/
def simGE (q a b : List ℚ) : Prop :=
  (0 ≤ dot q a ∧ dot q b < 0) ∨
  (0 ≤ dot q a ∧ 0 ≤ dot q b ∧ (dot q b) ^ 2 * normSq a ≤ (dot q a) ^ 2 * normSq b) ∨
  (dot q a < 0 ∧ dot q b < 0 ∧ (dot q a) ^ 2 * normSq b ≤ (dot q b) ^ 2 * normSq a)

instance (q a b : List ℚ) : Decidable (simGE q a b) := by
  unfold simGE
  infer_instance

/-- Tie-break of `search`: lower chunk sequence-index, then
lexicographic chunk-id. -/
def tieBreak (x y : EmbeddedChunk) : Prop :=
  x.seqIndex < y.seqIndex ∨ (x.seqIndex = y.seqIndex ∧ x.chunkId ≤ y.chunkId)

instance (x y : EmbeddedChunk) : Decidable (tieBreak x y) := by
  unfold tieBreak
  infer_instance

/-- Ranking relation of `search`: descending similarity to the query,
ties broken by `tieBreak`. -/
def entryRel (q : List ℚ) (x y : EmbeddedChunk) : Prop :=
  (simGE q x.vector y.vector ∧ ¬ simGE q y.vector x.vector) ∨
  (simGE q x.vector y.vector ∧ simGE q y.vector x.vector ∧ tieBreak x y)

instance (q : List ℚ) : DecidableRel (entryRel q) := fun x y => by
  unfold entryRel
  infer_instance

/-- Modelled from the spec: `search(query-vector, top-k)` returns the
stored chunks ordered by descending cosine similarity with the tie-break,
truncated to `top-k`.  The score reported for a returned entry `e` is
`simScore q e.vector`, stated separately because cosine similarity is
irrational in general. -/
def search (idx : Index) (q : List ℚ) (k : Nat) : List EmbeddedChunk :=
  (List.insertionSort (entryRel q) idx.entries).take k

/-- Cosine similarity of two rational vectors, as a real number. -/
noncomputable def cosSim (u v : List ℚ) : ℝ :=
  ((dot u v : ℚ) : ℝ) / (Real.sqrt ((normSq u : ℚ) : ℝ) * Real.sqrt ((normSq v : ℚ) : ℝ))

/-- Modelled from the spec: similarity scores are cosine similarity
normalized to `[0,1]` via `(cos+1)/2`. -/
noncomputable def simScore (u v : List ℚ) : ℝ :=
  (cosSim u v + 1) / 2

end VectorIndex

namespace Extension

/-- Language client constructed by `activate`; `name` stands for its
identity. -/
structure LanguageClient where
  name : String
deriving Repr, DecidableEq

/-- Observable operation invoked on the language client. -/
inductive ClientOp where
  | stop (c : LanguageClient)
deriving Repr, DecidableEq

/-- Promise returned by `client.stop()`. -/
inductive StopPromise where
  | ofStop (c : LanguageClient)
deriving Repr, DecidableEq

/-- Call to `client.stop()`: the returned promise together with the log
of client operations it performs. -/
def clientStop (c : LanguageClient) : StopPromise × List ClientOp :=
  (StopPromise.ofStop c, [ClientOp.stop c])

/-- Embedded from `extension.ts` (`deactivate`): when the module-level
client was never assigned the function returns `undefined` without
touching the client; otherwise it returns the promise of
`client.stop()`.  The second component logs the client operations
invoked. -/
def deactivate (client : Option LanguageClient) : Option StopPromise × List ClientOp :=
  match client with
  | none => (none, [])
  | some c =>
    let q := clientStop c
    (some q.1, q.2)

/-- Search result object consumed by `formatSearchResults`:
`{text, source, relevance}`. -/
structure WebviewResult where
  text : String
  source : String
  relevance : ℚ
deriving Repr, DecidableEq

/-- Rendering of a number to two decimal places (JavaScript
`toFixed(2)`), modelling the relevance display. -/
def toFixed2 (q : ℚ) : String :=
  let n : Int := Rat.floor (q * 100 + 1 / 2)
  let sign := if n < 0 then "-" else ""
  let m := n.natAbs
  sign ++ toString (m / 100) ++ "." ++ (if m % 100 < 10 then "0" else "") ++ toString (m % 100)

/-- Embedded from `extension.ts`: the fixed HTML emitted before the
result blocks (doctype, style with CSS braces, heading). -/
def htmlHead : String :=
  "<!DOCTYPE html><html><head><style>body \x7b font-family: var(--vscode-editor-font-family); \x7d .result \x7b margin: 1em 0; padding: 1em; background: var(--vscode-editor-background); \x7d .source \x7b color: var(--vscode-textLink-foreground); \x7d .relevance \x7b color: var(--vscode-textPreformat-foreground); \x7d</style></head><body><h2>Search Results</h2>"

/-- Embedded from `extension.ts`: the fixed HTML emitted after the
result blocks. -/
def htmlTail : String :=
  "</body></html>"

/-- Embedded from `extension.ts`: the block rendered for one search
result, embedding its text, its source and its relevance to two decimal
places. -/
def resultBlock (r : WebviewResult) : String :=
  "<div class=\"result\"><div class=\"content\">" ++ r.text ++
    "</div><div class=\"source\">Source: " ++ r.source ++
    "</div><div class=\"relevance\">Relevance: " ++ toFixed2 r.relevance ++
    "</div></div>"

/-- Concatenation of the blocks of all results in input order
(`results.map(...).join('')`). -/
def formatBlocks : List WebviewResult → String
  | [] => ""
  | r :: rs => resultBlock r ++ formatBlocks rs

/-- Embedded from `extension.ts` (`formatSearchResults`): the whole
webview HTML document. -/
def formatSearchResults (results : List WebviewResult) : String :=
  htmlHead ++ formatBlocks results ++ htmlTail

end Extension

/-! Helper lemmas about manifests and the cache store. -/

theorem Manifest.lookup_mem {m : Manifest} {id : String} {e : CacheEntry}
    (h : Manifest.lookup m id = some e) : e ∈ m := by
  induction m with
  | nil => simp [Manifest.lookup] at h
  | cons e2 m ih =>
    unfold Manifest.lookup at h
    by_cases h2 : e2.fileId = id
    · simp [h2] at h
      simp [h]
    · simp [h2] at h
      exact List.mem_cons_of_mem _ (ih h)

theorem Manifest.lookup_fileId {m : Manifest} {id : String} {e : CacheEntry}
    (h : Manifest.lookup m id = some e) : e.fileId = id := by
  induction m with
  | nil => simp [Manifest.lookup] at h
  | cons e2 m ih =>
    unfold Manifest.lookup at h
    by_cases h2 : e2.fileId = id
    · simp [h2] at h
      simp [← h, h2]
    · simp [h2] at h
      exact ih h

theorem Manifest.lookup_eq_none {m : Manifest} {id : String} :
    Manifest.lookup m id = none ↔ id ∉ manifestIds m := by
  induction m with
  | nil => simp [Manifest.lookup, manifestIds]
  | cons e m ih =>
    unfold Manifest.lookup
    by_cases h2 : e.fileId = id
    · simp [h2, manifestIds]
    · simp [h2, manifestIds, ih]
      intro h
      exact fun he => h2 he.symm

theorem lookupBytes_writeBytes {fs : List (String × List Nat)} {path p : String}
    {bytes b : List Nat} (h : lookupBytes fs p = some b) :
    lookupBytes (CacheStore.writeBytes fs path bytes) p = some b := by
  unfold CacheStore.writeBytes
  cases hl : lookupBytes fs path with
  | some b0 => exact h
  | none =>
    by_cases hpp : path = p
    · rw [hpp] at hl
      rw [hl] at h
      exact absurd h (by simp)
    · simpa [lookupBytes, hpp] using h

/-- C7: `is-fresh(file-id)` is true exactly when a cache entry for the
file-id exists and the current time is strictly before the entry's
`ttl-expires-at`. -/
theorem CacheStore.isFresh_iff (s : CacheState) (now : Nat) (id : String) :
    CacheStore.isFresh s now id = true ↔
      ∃ e, Manifest.lookup s.manifest id = some e ∧ now < e.ttlExpiresAt := by
  unfold CacheStore.isFresh
  cases h : Manifest.lookup s.manifest id with
  | none => simp
  | some e => simp

/-- C8: during `put`, no step before the final manifest update changes
the manifest or any observable `get`; every intermediate state satisfies
the manifest/bytes consistency invariant, so on a partial failure the
prior entry remains valid and observable; the completed `put` installs
the new entry. -/
theorem CacheStore.put_no_half_write (csum : List Nat → Nat) (s : CacheState)
    (id : String) (bytes : List Nat) (checksum now ttl : Nat)
    (hcons : CacheStore.consistentWith csum s)
    (hcs : csum bytes = checksum)
    (hpath : ∀ b, lookupBytes s.files (CacheStore.pathFor id checksum) = some b →
      csum b = checksum) :
    CacheStore.putUpTo s id bytes checksum now ttl 0 = s
    ∧ (CacheStore.putUpTo s id bytes checksum now ttl 1).manifest = s.manifest
    ∧ (∀ id2, CacheStore.get (CacheStore.putUpTo s id bytes checksum now ttl 1) id2
        = CacheStore.get s id2)
    ∧ (∀ n, CacheStore.consistentWith csum (CacheStore.putUpTo s id bytes checksum now ttl n))
    ∧ Manifest.lookup (CacheStore.put s id bytes checksum now ttl).1.manifest id
        = some (CacheStore.newEntry id checksum now ttl) := by
  refine ⟨rfl, rfl, ?_, ?_, ?_⟩
  · intro id2
    unfold CacheStore.get
    show (match Manifest.lookup s.manifest id2 with
      | some e => lookupBytes (CacheStore.writeBytes s.files (CacheStore.pathFor id checksum) bytes) e.localPath
      | none => none) = _
    cases hl : Manifest.lookup s.manifest id2 with
    | none => rfl
    | some e =>
      obtain ⟨b, hb, _⟩ := hcons e (Manifest.lookup_mem hl)
      simp only [hb, lookupBytes_writeBytes hb]
  · intro n
    match n with
    | 0 => exact hcons
    | 1 =>
      intro e he
      obtain ⟨b, hb, hcb⟩ := hcons e he
      exact ⟨b, lookupBytes_writeBytes hb, hcb⟩
    | n + 2 =>
      intro e he
      rcases List.mem_cons.mp he with he | he
      · subst he
        show ∃ b, lookupBytes (CacheStore.writeBytes s.files (CacheStore.pathFor id checksum) bytes)
          (CacheStore.pathFor id checksum) = some b ∧ _
        unfold CacheStore.writeBytes
        cases hl : lookupBytes s.files (CacheStore.pathFor id checksum) with
        | some b0 => exact ⟨b0, hl, hpath b0 hl⟩
        | none => exact ⟨bytes, by simp [lookupBytes], hcs⟩
      · obtain ⟨b, hb, hcb⟩ := hcons e (List.mem_of_mem_filter he)
        exact ⟨b, lookupBytes_writeBytes hb, hcb⟩
  · show Manifest.lookup (CacheStore.manifestUpsert s.manifest (CacheStore.newEntry id checksum now ttl)) id = _
    unfold CacheStore.manifestUpsert Manifest.lookup
    simp [CacheStore.newEntry]

/-- Witness for C8 at a concrete empty cache state. -/
theorem CacheStore.put_no_half_write_witness :
    (CacheStore.consistentWith List.sum ⟨[], []⟩
     ∧ List.sum [1, 2] = 3
     ∧ (∀ b, lookupBytes ([] : List (String × List Nat)) (CacheStore.pathFor ("f") 3) = some b →
        List.sum b = 3))
    ∧ (CacheStore.putUpTo ⟨[], []⟩ ("f") [1, 2] 3 0 10 0 = ⟨[], []⟩
       ∧ (CacheStore.putUpTo ⟨[], []⟩ ("f") [1, 2] 3 0 10 1).manifest = (⟨[], []⟩ : CacheState).manifest
       ∧ (∀ id2, CacheStore.get (CacheStore.putUpTo ⟨[], []⟩ ("f") [1, 2] 3 0 10 1) id2
           = CacheStore.get ⟨[], []⟩ id2)
       ∧ (∀ n, CacheStore.consistentWith List.sum (CacheStore.putUpTo ⟨[], []⟩ ("f") [1, 2] 3 0 10 n))
       ∧ Manifest.lookup (CacheStore.put ⟨[], []⟩ ("f") [1, 2] 3 0 10).1.manifest ("f")
           = some (CacheStore.newEntry ("f") 3 0 10)) :=
  ⟨⟨fun e he => absurd he (List.not_mem_nil e), by decide,
    fun b hb => absurd hb (by simp [lookupBytes])⟩,
   CacheStore.put_no_half_write List.sum ⟨[], []⟩ ("f") [1, 2] 3 0 10
    (fun e he => absurd he (List.not_mem_nil e)) (by decide)
    (fun b hb => absurd hb (by simp [lookupBytes]))⟩

/-! Helper lemmas about the four classes computed by `ChangeWatcher.diff`. -/

theorem ChangeWatcher.diff_new_iff {remote : List RemoteFile} {m : Manifest}
    (hR : (remoteIds remote).Nodup) {f : RemoteFile} (hf : f ∈ remote) :
    f.id ∈ (ChangeWatcher.diff remote m).new ↔ Manifest.lookup m f.id = none := by
  unfold ChangeWatcher.diff
  simp only [List.mem_map, List.mem_filter]
  constructor
  · rintro ⟨g, ⟨hg, hp⟩, hgid⟩
    have hgf : g = f := List.inj_on_of_nodup_map hR hg hf hgid
    subst hgf
    exact Option.isNone_iff_eq_none.mp hp
  · intro h
    exact ⟨f, ⟨hf, by simp [h]⟩, rfl⟩

theorem ChangeWatcher.diff_updated_iff {remote : List RemoteFile} {m : Manifest}
    (hR : (remoteIds remote).Nodup) {f : RemoteFile} (hf : f ∈ remote) :
    f.id ∈ (ChangeWatcher.diff remote m).updated
      ↔ ∃ e, Manifest.lookup m f.id = some e ∧ e.checksum ≠ f.remoteChecksum := by
  unfold ChangeWatcher.diff
  simp only [List.mem_map, List.mem_filter]
  constructor
  · rintro ⟨g, ⟨hg, hp⟩, hgid⟩
    have hgf : g = f := List.inj_on_of_nodup_map hR hg hf hgid
    rw [hgf] at hp
    cases hl : Manifest.lookup m f.id with
    | none => rw [hl] at hp; simp at hp
    | some e =>
      rw [hl] at hp
      simp only [bne_iff_ne] at hp
      exact ⟨e, rfl, hp⟩
  · rintro ⟨e, he, hne⟩
    exact ⟨f, ⟨hf, by simp [he, bne_iff_ne, hne]⟩, rfl⟩

theorem ChangeWatcher.diff_unchanged_iff {remote : List RemoteFile} {m : Manifest}
    (hR : (remoteIds remote).Nodup) {f : RemoteFile} (hf : f ∈ remote) :
    f.id ∈ (ChangeWatcher.diff remote m).unchanged
      ↔ ∃ e, Manifest.lookup m f.id = some e ∧ e.checksum = f.remoteChecksum := by
  unfold ChangeWatcher.diff
  simp only [List.mem_map, List.mem_filter]
  constructor
  · rintro ⟨g, ⟨hg, hp⟩, hgid⟩
    have hgf : g = f := List.inj_on_of_nodup_map hR hg hf hgid
    rw [hgf] at hp
    cases hl : Manifest.lookup m f.id with
    | none => rw [hl] at hp; simp at hp
    | some e =>
      rw [hl] at hp
      simp only [beq_iff_eq] at hp
      exact ⟨e, rfl, hp⟩
  · rintro ⟨e, he, heq⟩
    exact ⟨f, ⟨hf, by simp [he, heq]⟩, rfl⟩

theorem ChangeWatcher.diff_deleted_iff (remote : List RemoteFile) (m : Manifest)
    (id : String) :
    id ∈ (ChangeWatcher.diff remote m).deleted
      ↔ id ∈ manifestIds m ∧ id ∉ remoteIds remote := by
  unfold ChangeWatcher.diff
  simp only [List.mem_map, List.mem_filter, List.all_eq_true, bne_iff_ne, manifestIds,
    remoteIds]
  constructor
  · rintro ⟨e, ⟨he, hall⟩, heid⟩
    refine ⟨⟨e, he, heid⟩, ?_⟩
    rintro ⟨g, hg, hgid⟩
    exact hall g hg (by rw [hgid, heid])
  · rintro ⟨⟨e, he, heid⟩, hnr⟩
    exact ⟨e, ⟨he, fun g hg hgid => hnr ⟨g, hg, by rw [hgid, heid]⟩⟩, heid⟩

theorem ChangeWatcher.diff_new_subset (remote : List RemoteFile) (m : Manifest) :
    (ChangeWatcher.diff remote m).new ⊆ remoteIds remote :=
  ((List.filter_sublist remote).map RemoteFile.id).subset

theorem ChangeWatcher.diff_updated_subset (remote : List RemoteFile) (m : Manifest) :
    (ChangeWatcher.diff remote m).updated ⊆ remoteIds remote :=
  ((List.filter_sublist remote).map RemoteFile.id).subset

theorem ChangeWatcher.diff_unchanged_subset (remote : List RemoteFile) (m : Manifest) :
    (ChangeWatcher.diff remote m).unchanged ⊆ remoteIds remote :=
  ((List.filter_sublist remote).map RemoteFile.id).subset

theorem ChangeWatcher.diff_new_nodup {remote : List RemoteFile} (m : Manifest)
    (hR : (remoteIds remote).Nodup) : (ChangeWatcher.diff remote m).new.Nodup :=
  List.Nodup.sublist ((List.filter_sublist remote).map RemoteFile.id) hR

theorem ChangeWatcher.diff_updated_nodup {remote : List RemoteFile} (m : Manifest)
    (hR : (remoteIds remote).Nodup) : (ChangeWatcher.diff remote m).updated.Nodup :=
  List.Nodup.sublist ((List.filter_sublist remote).map RemoteFile.id) hR

theorem ChangeWatcher.diff_unchanged_nodup {remote : List RemoteFile} (m : Manifest)
    (hR : (remoteIds remote).Nodup) : (ChangeWatcher.diff remote m).unchanged.Nodup :=
  List.Nodup.sublist ((List.filter_sublist remote).map RemoteFile.id) hR

theorem ChangeWatcher.diff_deleted_nodup (remote : List RemoteFile) {m : Manifest}
    (hM : (manifestIds m).Nodup) : (ChangeWatcher.diff remote m).deleted.Nodup :=
  List.Nodup.sublist ((List.filter_sublist m).map CacheEntry.fileId) hM

theorem ChangeWatcher.count_eq_ite {l : List String} (hl : l.Nodup) (id : String) :
    l.count id = if id ∈ l then 1 else 0 := by
  by_cases h : id ∈ l
  · simp [h, List.count_eq_one_of_mem hl h]
  · simp [h, List.count_eq_zero_of_not_mem h]

/-- C1: `ChangeWatcher.diff` assigns every file-id in the union of
remote-file-ids and manifest-file-ids to exactly one of the four classes
(the concatenated class lists count it exactly once, and an id outside
the union never appears), and the classes follow the checksum-based
classification rule. -/
theorem ChangeWatcher.diff_partition (remote : List RemoteFile) (m : Manifest)
    (hR : (remoteIds remote).Nodup) (hM : (manifestIds m).Nodup) :
    (∀ id : String,
      ((ChangeWatcher.diff remote m).new ++ (ChangeWatcher.diff remote m).updated
        ++ (ChangeWatcher.diff remote m).deleted
        ++ (ChangeWatcher.diff remote m).unchanged).count id
        = if id ∈ remoteIds remote ∨ id ∈ manifestIds m then 1 else 0)
    ∧ (∀ f ∈ remote, (f.id ∈ (ChangeWatcher.diff remote m).unchanged
        ↔ ∃ e, Manifest.lookup m f.id = some e ∧ e.checksum = f.remoteChecksum))
    ∧ (∀ f ∈ remote, (f.id ∈ (ChangeWatcher.diff remote m).updated
        ↔ ∃ e, Manifest.lookup m f.id = some e ∧ e.checksum ≠ f.remoteChecksum))
    ∧ (∀ f ∈ remote, (f.id ∈ (ChangeWatcher.diff remote m).new
        ↔ Manifest.lookup m f.id = none))
    ∧ (∀ id : String, (id ∈ (ChangeWatcher.diff remote m).deleted
        ↔ id ∈ manifestIds m ∧ id ∉ remoteIds remote)) := by
  refine ⟨?_, fun f hf => ChangeWatcher.diff_unchanged_iff hR hf,
    fun f hf => ChangeWatcher.diff_updated_iff hR hf,
    fun f hf => ChangeWatcher.diff_new_iff hR hf,
    fun id => ChangeWatcher.diff_deleted_iff remote m id⟩
  intro id
  rw [List.count_append, List.count_append, List.count_append,
    ChangeWatcher.count_eq_ite (ChangeWatcher.diff_new_nodup m hR),
    ChangeWatcher.count_eq_ite (ChangeWatcher.diff_updated_nodup m hR),
    ChangeWatcher.count_eq_ite (ChangeWatcher.diff_deleted_nodup remote hM),
    ChangeWatcher.count_eq_ite (ChangeWatcher.diff_unchanged_nodup m hR)]
  by_cases hrm : id ∈ remoteIds remote
  · obtain ⟨f, hf, hfid⟩ := List.mem_map.mp hrm
    subst hfid
    have hdel : f.id ∉ (ChangeWatcher.diff remote m).deleted := by
      rw [ChangeWatcher.diff_deleted_iff]
      rintro ⟨-, hnr⟩
      exact hnr hrm
    cases hl : Manifest.lookup m f.id with
    | none =>
      have h1 : f.id ∈ (ChangeWatcher.diff remote m).new :=
        (ChangeWatcher.diff_new_iff hR hf).mpr hl
      have h2 : f.id ∉ (ChangeWatcher.diff remote m).updated := by
        rw [ChangeWatcher.diff_updated_iff hR hf]
        rintro ⟨e, he, -⟩
        rw [hl] at he
        exact absurd he (by simp)
      have h3 : f.id ∉ (ChangeWatcher.diff remote m).unchanged := by
        rw [ChangeWatcher.diff_unchanged_iff hR hf]
        rintro ⟨e, he, -⟩
        rw [hl] at he
        exact absurd he (by simp)
      simp [h1, h2, h3, hdel, hrm]
    | some e =>
      by_cases hce : e.checksum = f.remoteChecksum
      · have h1 : f.id ∉ (ChangeWatcher.diff remote m).new := by
          rw [ChangeWatcher.diff_new_iff hR hf, hl]
          simp
        have h2 : f.id ∉ (ChangeWatcher.diff remote m).updated := by
          rw [ChangeWatcher.diff_updated_iff hR hf]
          rintro ⟨e2, he2, hne⟩
          rw [hl] at he2
          cases he2
          exact hne hce
        have h3 : f.id ∈ (ChangeWatcher.diff remote m).unchanged :=
          (ChangeWatcher.diff_unchanged_iff hR hf).mpr ⟨e, hl, hce⟩
        simp [h1, h2, h3, hdel, hrm]
      · have h1 : f.id ∉ (ChangeWatcher.diff remote m).new := by
          rw [ChangeWatcher.diff_new_iff hR hf, hl]
          simp
        have h2 : f.id ∈ (ChangeWatcher.diff remote m).updated :=
          (ChangeWatcher.diff_updated_iff hR hf).mpr ⟨e, hl, hce⟩
        have h3 : f.id ∉ (ChangeWatcher.diff remote m).unchanged := by
          rw [ChangeWatcher.diff_unchanged_iff hR hf]
          rintro ⟨e2, he2, heq⟩
          rw [hl] at he2
          cases he2
          exact hce heq
        simp [h1, h2, h3, hdel, hrm]
  · have h1 : id ∉ (ChangeWatcher.diff remote m).new :=
      fun h => hrm (ChangeWatcher.diff_new_subset remote m h)
    have h2 : id ∉ (ChangeWatcher.diff remote m).updated :=
      fun h => hrm (ChangeWatcher.diff_updated_subset remote m h)
    have h3 : id ∉ (ChangeWatcher.diff remote m).unchanged :=
      fun h => hrm (ChangeWatcher.diff_unchanged_subset remote m h)
    by_cases hmm : id ∈ manifestIds m
    · have hdel : id ∈ (ChangeWatcher.diff remote m).deleted :=
        (ChangeWatcher.diff_deleted_iff remote m id).mpr ⟨hmm, hrm⟩
      simp [h1, h2, h3, hdel, hmm]
    · have hdel : id ∉ (ChangeWatcher.diff remote m).deleted := by
        rw [ChangeWatcher.diff_deleted_iff]
        rintro ⟨hm2, -⟩
        exact hmm hm2
      simp [h1, h2, h3, hdel, hrm, hmm]

/-- Witness for C1 at a concrete listing and manifest: file `a` is new,
`b` is updated, `c` is deleted. -/
theorem ChangeWatcher.diff_partition_witness :
    ((remoteIds [⟨"a", "A", 1, 0⟩, ⟨"b", "B", 2, 0⟩]).Nodup
     ∧ (manifestIds [⟨"b", "p", 3, 0, 0⟩, ⟨"c", "q", 4, 0, 0⟩]).Nodup)
    ∧ ((ChangeWatcher.diff [⟨"a", "A", 1, 0⟩, ⟨"b", "B", 2, 0⟩]
          [⟨"b", "p", 3, 0, 0⟩, ⟨"c", "q", 4, 0, 0⟩]).new
        ++ (ChangeWatcher.diff [⟨"a", "A", 1, 0⟩, ⟨"b", "B", 2, 0⟩]
          [⟨"b", "p", 3, 0, 0⟩, ⟨"c", "q", 4, 0, 0⟩]).updated
        ++ (ChangeWatcher.diff [⟨"a", "A", 1, 0⟩, ⟨"b", "B", 2, 0⟩]
          [⟨"b", "p", 3, 0, 0⟩, ⟨"c", "q", 4, 0, 0⟩]).deleted
        ++ (ChangeWatcher.diff [⟨"a", "A", 1, 0⟩, ⟨"b", "B", 2, 0⟩]
          [⟨"b", "p", 3, 0, 0⟩, ⟨"c", "q", 4, 0, 0⟩]).unchanged).count ("c") = 1 := by
  refine ⟨⟨by decide, by decide⟩, ?_⟩
  have h := (ChangeWatcher.diff_partition [⟨"a", "A", 1, 0⟩, ⟨"b", "B", 2, 0⟩]
    [⟨"b", "p", 3, 0, 0⟩, ⟨"c", "q", 4, 0, 0⟩] (by decide) (by decide)).1 ("c")
  rw [if_pos (by decide)] at h
  exact h

/-! Helper lemmas about the chunking algorithm. -/

theorem Chunker.flatten_splitOnAfter (p : String → Bool) :
    ∀ ts : List String, (Chunker.splitOnAfter p ts).flatten = ts := by
  intro ts
  induction ts with
  | nil => rfl
  | cons t ts ih =>
    unfold Chunker.splitOnAfter
    by_cases h : p t
    · simp [h, ih]
    · cases hs : Chunker.splitOnAfter p ts with
      | nil =>
        rw [hs] at ih
        simp at ih
        simp [h, ← ih]
      | cons seg segs =>
        rw [hs] at ih
        simp only [List.flatten_cons] at ih
        simp [h, List.flatten_cons, ih]

theorem Chunker.flatten_flatMap_of_flatten_eq {l : List (List String)}
    {f : List String → List (List String)} (hf : ∀ x ∈ l, (f x).flatten = x) :
    (l.flatMap f).flatten = l.flatten := by
  induction l with
  | nil => rfl
  | cons x l ih =>
    simp only [List.flatMap_cons, List.flatten_append, List.flatten_cons]
    rw [hf x (List.mem_cons_self x l), ih (fun y hy => hf y (List.mem_cons_of_mem x hy))]

theorem Chunker.flatten_pieces (P : Chunker.ChunkParams) (ts : List String) :
    (Chunker.pieces P ts).flatten = ts := by
  unfold Chunker.pieces
  rw [Chunker.flatten_flatMap_of_flatten_eq, Chunker.flatten_splitOnAfter]
  intro x hx
  by_cases h : P.maxTokens < x.length
  · simp [h, Chunker.flatten_splitOnAfter]
  · simp [h]

theorem Chunker.flatten_packAux (maxT : Nat) :
    ∀ (ps : List (List String)) (cur : List String),
      (Chunker.packAux maxT cur ps).flatten = cur ++ ps.flatten := by
  intro ps
  induction ps with
  | nil =>
    intro cur
    unfold Chunker.packAux
    by_cases h : cur.isEmpty
    · rw [List.isEmpty_iff] at h
      simp [h]
    · simp [h]
  | cons p ps ih =>
    intro cur
    unfold Chunker.packAux
    by_cases hc : cur.isEmpty
    · rw [List.isEmpty_iff] at hc
      simp [hc, ih p]
    · simp only [hc, Bool.false_eq_true, if_false]
      by_cases hsz : maxT < cur.length + p.length
      · simp [hsz, ih p]
      · simp [hsz, ih (cur ++ p)]
  
theorem Chunker.flatten_mergeTailAux (minT : Nat) :
    ∀ (l : List (List String)) (prev : List String),
      (Chunker.mergeTailAux minT prev l).flatten = prev ++ l.flatten := by
  intro l
  induction l with
  | nil => intro prev; simp [Chunker.mergeTailAux]
  | cons s rest ih =>
    intro prev
    cases rest with
    | nil =>
      unfold Chunker.mergeTailAux
      by_cases h : s.length < minT
      · simp [h]
      · simp [h]
    | cons r rs =>
      show (prev :: Chunker.mergeTailAux minT s (r :: rs)).flatten = _
      simp only [List.flatten_cons, ih s]

theorem Chunker.flatten_mergeTail (minT : Nat) (l : List (List String)) :
    (Chunker.mergeTail minT l).flatten = l.flatten := by
  cases l with
  | nil => rfl
  | cons s rest =>
    show (Chunker.mergeTailAux minT s rest).flatten = _
    rw [Chunker.flatten_mergeTailAux]
    simp

theorem Chunker.length_tailTokens (ov : Nat) (c : List String) :
    (Chunker.tailTokens ov c).length = min ov c.length := by
  unfold Chunker.tailTokens
  rw [List.length_drop]
  omega

theorem Chunker.concatDrop_addOverlapAux (ov : Nat) :
    ∀ (l : List (List String)) (prev : List String),
      Chunker.concatDropOverlapAux ov prev (Chunker.addOverlapAux ov prev l) = l.flatten := by
  intro l
  induction l with
  | nil => intro prev; rfl
  | cons s rest ih =>
    intro prev
    show Chunker.concatDropOverlapAux ov prev
      ((Chunker.tailTokens ov prev ++ s) :: Chunker.addOverlapAux ov (Chunker.tailTokens ov prev ++ s) rest) = _
    unfold Chunker.concatDropOverlapAux
    rw [ih (Chunker.tailTokens ov prev ++ s)]
    rw [← Chunker.length_tailTokens ov prev, List.drop_left]
    simp

theorem Chunker.concatDrop_addOverlap (ov : Nat) (l : List (List String)) :
    Chunker.concatDropOverlap ov (Chunker.addOverlap ov l) = l.flatten := by
  cases l with
  | nil => rfl
  | cons s rest =>
    show s ++ Chunker.concatDropOverlapAux ov s (Chunker.addOverlapAux ov s rest) = _
    rw [Chunker.concatDrop_addOverlapAux]
    simp

theorem Chunker.length_addOverlapAux (ov : Nat) :
    ∀ (l : List (List String)) (prev : List String),
      (Chunker.addOverlapAux ov prev l).length = l.length := by
  intro l
  induction l with
  | nil => intro prev; rfl
  | cons s rest ih =>
    intro prev
    show (_ :: Chunker.addOverlapAux ov _ rest).length = _
    simp [ih]

theorem Chunker.length_addOverlap (ov : Nat) (l : List (List String)) :
    (Chunker.addOverlap ov l).length = l.length := by
  cases l with
  | nil => rfl
  | cons s rest =>
    show (s :: Chunker.addOverlapAux ov s rest).length = _
    simp [Chunker.length_addOverlapAux]

theorem Chunker.map_text_split (d : String) (P : Chunker.ChunkParams) (ts : List String) :
    (Chunker.split d P ts).map Chunker.Chunk.text = Chunker.chunkTexts P ts := by
  unfold Chunker.split Chunker.chunkTexts
  rw [List.map_map]
  have h1 : (Chunker.Chunk.text ∘ fun q : Nat × (List String × Nat) =>
      ({ chunkId := d ++ "#" ++ toString q.1, documentId := d, sequenceIndex := q.1,
         text := q.2.1, tokenCount := q.2.1.length, pageNumber := 0,
         charOffsetSpan := (q.2.2 - q.2.1.length, q.2.2) } : Chunker.Chunk))
      = fun q : Nat × (List String × Nat) => q.2.1 := rfl
  rw [h1]
  have h2 : (fun q : Nat × (List String × Nat) => q.2.1)
      = (fun r : List String × Nat => r.1) ∘ Prod.snd := rfl
  rw [h2, ← List.map_map, List.enum_map_snd]
  have h3 : (fun r : List String × Nat => r.1) = Prod.fst := rfl
  rw [h3, List.map_fst_zip]
  rw [Chunker.length_addOverlap, List.length_tail, List.length_scanl]
  simp

/-- C3: `Chunker.split` is a deterministic function of its arguments:
two calls with identical document id, parameters and input text return
identical chunk sequences. -/
theorem Chunker.split_deterministic (d1 d2 : String) (P1 P2 : Chunker.ChunkParams)
    (t1 t2 : List String) (hd : d1 = d2) (hP : P1 = P2) (ht : t1 = t2) :
    Chunker.split d1 P1 t1 = Chunker.split d2 P2 t2 := by
  subst hd
  subst hP
  subst ht
  rfl

/-- Witness for C3 at a concrete document. -/
theorem Chunker.split_deterministic_witness :
    (("d" : String) = "d" ∧ (⟨5, 2, 1⟩ : Chunker.ChunkParams) = ⟨5, 2, 1⟩
      ∧ (["a", "b"] : List String) = ["a", "b"])
    ∧ Chunker.split ("d") ⟨5, 2, 1⟩ ["a", "b"] = Chunker.split ("d") ⟨5, 2, 1⟩ ["a", "b"] :=
  ⟨⟨rfl, rfl, rfl⟩, Chunker.split_deterministic _ _ _ _ _ _ rfl rfl rfl⟩

/-- C4 counterexample: on the six-token document below with
`max-tokens = 5`, `overlap-tokens = 3`, `min-tokens = 1`, the first
chunk has only two tokens, so the second chunk re-includes only two
overlap tokens; removing exactly the declared three-token overlap from
it loses a token and the concatenation does not reconstruct the
input. -/
theorem Chunker.roundtrip_exact_counterexample :
    Chunker.concatDropExact 3
        ((Chunker.split ("doc") ⟨5, 3, 1⟩ ["a", "\n\n", "x", "y", "z", "w"]).map
          Chunker.Chunk.text)
      ≠ ["a", "\n\n", "x", "y", "z", "w"] := by
  decide

/-- C4 (amended): concatenating the chunk texts in sequence order while
removing from each chunk after the first the overlap it actually
re-includes — `overlap-tokens` tokens, or the whole previous chunk's
length when that chunk is shorter than `overlap-tokens` — reconstructs
the original input text. -/
theorem Chunker.split_roundtrip (d : String) (P : Chunker.ChunkParams) (ts : List String) :
    Chunker.concatDropOverlap P.overlapTokens
      ((Chunker.split d P ts).map Chunker.Chunk.text) = ts := by
  rw [Chunker.map_text_split]
  unfold Chunker.chunkTexts
  rw [Chunker.concatDrop_addOverlap, Chunker.flatten_mergeTail, Chunker.flatten_packAux,
    Chunker.flatten_pieces]
  simp

/-! Helper lemma for the greedy context walk. -/

theorem ContextBuilder.buildAux_spec (maxT : Nat)
    (isDup : List String → List String → Bool) :
    ∀ (rest : List SearchResult) (included : List (List String)) (used : Nat),
      used = (included.map List.length).sum → used ≤ maxT →
      (ContextBuilder.buildAux maxT isDup included used rest).totalTokenCount
          = (((ContextBuilder.buildAux maxT isDup included used rest).chunks.map
              List.length).sum)
        ∧ (ContextBuilder.buildAux maxT isDup included used rest).totalTokenCount ≤ maxT
        ∧ ∀ c ∈ (ContextBuilder.buildAux maxT isDup included used rest).sourceCitations,
            c.truncated = false := by
  intro rest
  induction rest with
  | nil =>
    intro included used hsum hle
    exact ⟨hsum, hle, fun c hc => absurd hc (List.not_mem_nil c)⟩
  | cons r rest ih =>
    intro included used hsum hle
    unfold ContextBuilder.buildAux
    by_cases hdup : included.any (fun c => isDup r.text c)
    · simp only [hdup, if_true]
      exact ih included used hsum hle
    · simp only [hdup, Bool.false_eq_true, if_false]
      by_cases hfit : used + r.text.length ≤ maxT
      · simp only [hfit, if_true]
        have hsum2 : used + r.text.length = ((included ++ [r.text]).map List.length).sum := by
          simp [hsum]
        obtain ⟨h1, h2, h3⟩ := ih (included ++ [r.text]) (used + r.text.length) hsum2 hfit
        refine ⟨h1, h2, ?_⟩
        intro c hc
        rcases List.mem_cons.mp hc with hc | hc
        · rw [hc]
        · exact h3 c hc
      · simp only [hfit, if_false]
        exact ih included used hsum hle

/-- C2: the `Context` returned by `ContextBuilder.build` always has
total-token-count at most `max-tokens` (so a budget-exceeded failure
cannot occur), the total equals the token count of the included chunks,
and the single-chunk-overflow fallback — the highest-ranked chunk alone
exceeding the budget — is the only case in which a truncation flag
appears in the source citations, where it does appear. -/
theorem ContextBuilder.build_within_budget (results : List SearchResult) (maxT : Nat)
    (isDup : List String → List String → Bool) :
    (ContextBuilder.build results maxT isDup).totalTokenCount ≤ maxT
    ∧ (ContextBuilder.build results maxT isDup).totalTokenCount
        = (((ContextBuilder.build results maxT isDup).chunks.map List.length).sum)
    ∧ (∀ r, results.head? = some r → maxT < r.text.length →
        (⟨r.chunkId, r.sourceMeta, true⟩ : Citation)
          ∈ (ContextBuilder.build results maxT isDup).sourceCitations)
    ∧ (∀ c ∈ (ContextBuilder.build results maxT isDup).sourceCitations,
        c.truncated = true →
          ∃ r, results.head? = some r ∧ maxT < r.text.length
            ∧ c = ⟨r.chunkId, r.sourceMeta, true⟩) := by
  cases results with
  | nil =>
    refine ⟨by simp [ContextBuilder.build], by simp [ContextBuilder.build], ?_, ?_⟩
    · intro r hr
      exact absurd hr (by simp)
    · intro c hc
      simp [ContextBuilder.build] at hc
  | cons r rest =>
    by_cases hov : maxT < r.text.length
    · have hsum : maxT = (([r.text.take maxT] : List (List String)).map List.length).sum := by
        simp [List.length_take]
        omega
      obtain ⟨h1, h2, h3⟩ := ContextBuilder.buildAux_spec maxT isDup rest
        [r.text.take maxT] maxT hsum (le_refl maxT)
      have hb : ContextBuilder.build (r :: rest) maxT isDup
          = { ContextBuilder.buildAux maxT isDup [r.text.take maxT] maxT rest with
              sourceCitations := ⟨r.chunkId, r.sourceMeta, true⟩
                :: (ContextBuilder.buildAux maxT isDup [r.text.take maxT] maxT rest).sourceCitations } := by
        unfold ContextBuilder.build
        simp [hov]
      rw [hb]
      refine ⟨h2, h1, ?_, ?_⟩
      · intro r2 hr2 hlen
        cases hr2
        exact List.mem_cons_self _ _
      · intro c hc htr
        rcases List.mem_cons.mp hc with hc | hc
        · exact ⟨r, rfl, hov, hc⟩
        · rw [h3 c hc] at htr
          cases htr
    · have hb : ContextBuilder.build (r :: rest) maxT isDup
          = ContextBuilder.buildAux maxT isDup [] 0 (r :: rest) := by
        unfold ContextBuilder.build
        simp [hov]
      obtain ⟨h1, h2, h3⟩ := ContextBuilder.buildAux_spec maxT isDup (r :: rest) [] 0 rfl
        (Nat.zero_le maxT)
      rw [hb]
      refine ⟨h2, h1, ?_, ?_⟩
      · intro r2 hr2 hlen
        cases hr2
        exact absurd hlen hov
      · intro c hc htr
        rw [h3 c hc] at htr
        cases htr

/-- Witness for C2: a single oversized chunk is truncated to the budget
and flagged. -/
theorem ContextBuilder.build_within_budget_witness :
    (([⟨"c1", ["a", "b", "c"], 0, "s", 0⟩] : List SearchResult).head?
        = some ⟨"c1", ["a", "b", "c"], 0, "s", 0⟩
      ∧ 2 < (["a", "b", "c"] : List String).length)
    ∧ (⟨"c1", "s", true⟩ : Citation)
        ∈ (ContextBuilder.build [⟨"c1", ["a", "b", "c"], 0, "s", 0⟩] 2
            (fun _ _ => false)).sourceCitations :=
  ⟨⟨rfl, by decide⟩,
   (ContextBuilder.build_within_budget [⟨"c1", ["a", "b", "c"], 0, "s", 0⟩] 2
      (fun _ _ => false)).2.2.1 ⟨"c1", ["a", "b", "c"], 0, "s", 0⟩ rfl (by decide)⟩

/-! Helper lemmas for the webview formatter. -/

theorem Extension.foldl_append_init (l : List String) :
    ∀ s : String, List.foldl (fun r t => r ++ t) s l
      = s ++ List.foldl (fun r t => r ++ t) "" l := by
  induction l with
  | nil => intro s; simp
  | cons a l ih =>
    intro s
    rw [List.foldl_cons, List.foldl_cons, ih (s ++ a), ih (("" : String) ++ a)]
    simp [String.append_assoc]

theorem Extension.formatBlocks_eq_join :
    ∀ rs : List Extension.WebviewResult,
      Extension.formatBlocks rs = String.join (rs.map Extension.resultBlock) := by
  intro rs
  induction rs with
  | nil => rfl
  | cons r rs ih =>
    show Extension.resultBlock r ++ Extension.formatBlocks rs = _
    rw [ih]
    show _ = List.foldl (fun r t => r ++ t) (("" : String) ++ Extension.resultBlock r)
      (rs.map Extension.resultBlock)
    rw [Extension.foldl_append_init ((rs.map Extension.resultBlock)) (("" : String) ++ Extension.resultBlock r)]
    simp [String.join]

/-- C9: `deactivate` returns `undefined` and invokes no client operation
when the module-level client was never assigned, and otherwise returns
exactly the promise produced by `client.stop()` with its single stop
operation. -/
theorem Extension.deactivate_spec :
    Extension.deactivate none = (none, [])
    ∧ ∀ c, Extension.deactivate (some c)
        = (some (Extension.clientStop c).1, (Extension.clientStop c).2) :=
  ⟨rfl, fun _ => rfl⟩

/-- C10: `formatSearchResults` renders the fixed document head, then
exactly one result block per input element in input order — each block
embedding that element's text, source and relevance to two decimal
places — then the fixed tail; in particular no element is dropped or
duplicated. -/
theorem Extension.formatSearchResults_blocks (results : List Extension.WebviewResult) :
    Extension.formatSearchResults results
      = Extension.htmlHead ++ String.join (results.map Extension.resultBlock)
        ++ Extension.htmlTail
    ∧ (results.map Extension.resultBlock).length = results.length
    ∧ ∀ r : Extension.WebviewResult, Extension.resultBlock r
        = "<div class=\"result\"><div class=\"content\">" ++ r.text
          ++ "</div><div class=\"source\">Source: " ++ r.source
          ++ "</div><div class=\"relevance\">Relevance: " ++ Extension.toFixed2 r.relevance
          ++ "</div></div>" := by
  refine ⟨?_, by simp, fun r => rfl⟩
  unfold Extension.formatSearchResults
  rw [Extension.formatBlocks_eq_join]

/-! Helper lemmas for the hybrid search ranking. -/

instance HybridSearchEngine.instHsRelTotal :
    IsTotal (HybridSearchEngine.Candidate × ℚ) HybridSearchEngine.hsRel := by
  constructor
  intro a b
  unfold HybridSearchEngine.hsRel
  rcases lt_trichotomy b.2 a.2 with h | h | h
  · exact Or.inl (Or.inl h)
  · rcases le_total a.1.chunkId b.1.chunkId with hc | hc
    · exact Or.inl (Or.inr ⟨h.symm, hc⟩)
    · exact Or.inr (Or.inr ⟨h, hc⟩)
  · exact Or.inr (Or.inl h)

instance HybridSearchEngine.instHsRelTrans :
    IsTrans (HybridSearchEngine.Candidate × ℚ) HybridSearchEngine.hsRel := by
  constructor
  intro a b c hab hbc
  unfold HybridSearchEngine.hsRel at *
  rcases hab with h1 | ⟨h1, h1c⟩
  · rcases hbc with h2 | ⟨h2, h2c⟩
    · exact Or.inl (lt_trans h2 h1)
    · exact Or.inl (h2 ▸ h1)
  · rcases hbc with h2 | ⟨h2, h2c⟩
    · exact Or.inl (h1 ▸ h2)
    · exact Or.inr ⟨h1.trans h2, le_trans h1c h2c⟩

instance HybridSearchEngine.instRerankRelTotal :
    IsTotal (HybridSearchEngine.Candidate × ℚ) HybridSearchEngine.rerankRel := by
  constructor
  intro a b
  unfold HybridSearchEngine.rerankRel
  rcases lt_trichotomy b.2 a.2 with h | h | h
  · exact Or.inl (Or.inl h)
  · rcases lt_trichotomy b.1.recency a.1.recency with hr | hr | hr
    · exact Or.inl (Or.inr ⟨h.symm, Or.inl hr⟩)
    · rcases le_total a.1.chunkId b.1.chunkId with hc | hc
      · exact Or.inl (Or.inr ⟨h.symm, Or.inr ⟨hr.symm, hc⟩⟩)
      · exact Or.inr (Or.inr ⟨h, Or.inr ⟨hr, hc⟩⟩)
    · exact Or.inr (Or.inr ⟨h, Or.inl hr⟩)
  · exact Or.inr (Or.inl h)

instance HybridSearchEngine.instRerankRelTrans :
    IsTrans (HybridSearchEngine.Candidate × ℚ) HybridSearchEngine.rerankRel := by
  constructor
  intro a b c hab hbc
  unfold HybridSearchEngine.rerankRel at *
  rcases hab with h1 | ⟨h1, h1r⟩
  · rcases hbc with h2 | ⟨h2, h2r⟩
    · exact Or.inl (lt_trans h2 h1)
    · exact Or.inl (h2 ▸ h1)
  · rcases hbc with h2 | ⟨h2, h2r⟩
    · exact Or.inl (h1 ▸ h2)
    · refine Or.inr ⟨h1.trans h2, ?_⟩
      rcases h1r with hr1 | ⟨hr1, hc1⟩
      · rcases h2r with hr2 | ⟨hr2, hc2⟩
        · exact Or.inl (lt_trans hr2 hr1)
        · exact Or.inl (hr2 ▸ hr1)
      · rcases h2r with hr2 | ⟨hr2, hc2⟩
        · exact Or.inl (hr1 ▸ hr2)
        · exact Or.inr ⟨hr1.trans hr2, le_trans hc1 hc2⟩

theorem mem_of_mem_enum {α : Type} {q : Nat × α} {l : List α} (h : q ∈ l.enum) :
    q.2 ∈ l := by
  obtain ⟨i, x⟩ := q
  rw [List.enum_eq_zip_range] at h
  exact (List.of_mem_zip h).2

theorem pairwise_enum_of_pairwise {α : Type} {R : α → α → Prop} {l : List α}
    (h : l.Pairwise R) : l.enum.Pairwise (fun p q => R p.2 q.2) := by
  have h2 : (l.enum.map Prod.snd).Pairwise R := by
    rw [List.enum_map_snd]
    exact h
  exact List.pairwise_map.mp h2

/-- C5: `HybridSearchEngine.search` scores every returned result with
the weighted formula
`combined = semantic-weight * semantic-score + (1 - semantic-weight) * lexical-score`
over its candidate and returns exactly the top `top-k` candidates by
that combined score, sorted in descending order of it: the returned
scores together with the scores dropped past position `top-k` of the
descending sort are precisely all candidates' combined scores, and
every dropped score is at most every returned score, so the output
ranking of any two candidates reflects the weighted formula. -/
theorem HybridSearchEngine.search_combined_ranking (query : List String) (k : Nat)
    (w : ℚ) (cands : List HybridSearchEngine.Candidate) (hw : 0 ≤ w ∧ w ≤ 1) :
    (∀ r ∈ HybridSearchEngine.search query k w cands, ∃ c ∈ cands,
        r.chunkId = c.chunkId ∧ r.text = c.text
          ∧ r.score = HybridSearchEngine.combinedScore w c.semScore
              (HybridSearchEngine.lexScore query c.text))
    ∧ (HybridSearchEngine.search query k w cands).Pairwise
        (fun a b => b.score ≤ a.score)
    ∧ (HybridSearchEngine.search query k w cands).length = min k cands.length
    ∧ (((HybridSearchEngine.search query k w cands).map SearchResult.score)
        ++ (((List.insertionSort HybridSearchEngine.hsRel
          (cands.map (fun c => (c, HybridSearchEngine.combinedScore w c.semScore
            (HybridSearchEngine.lexScore query c.text))))).drop k).map Prod.snd)).Perm
        (cands.map (fun c => HybridSearchEngine.combinedScore w c.semScore
          (HybridSearchEngine.lexScore query c.text)))
    ∧ (∀ p ∈ (List.insertionSort HybridSearchEngine.hsRel
          (cands.map (fun c => (c, HybridSearchEngine.combinedScore w c.semScore
            (HybridSearchEngine.lexScore query c.text))))).drop k,
        ∀ r ∈ HybridSearchEngine.search query k w cands, p.2 ≤ r.score) := by
  refine ⟨?_, ?_, ?_, ?_, ?_⟩
  · intro r hr
    unfold HybridSearchEngine.search at hr
    obtain ⟨q, hq, hqr⟩ := List.mem_map.mp hr
    have hq2 := mem_of_mem_enum hq
    have hq3 := (List.perm_insertionSort HybridSearchEngine.rerankRel _).subset hq2
    have hq4 := List.mem_of_mem_take hq3
    have hq5 := (List.perm_insertionSort HybridSearchEngine.hsRel _).subset hq4
    obtain ⟨c, hc, hcq⟩ := List.mem_map.mp hq5
    refine ⟨c, hc, ?_, ?_, ?_⟩
    · rw [← hqr, ← hcq]
    · rw [← hqr, ← hcq]
    · rw [← hqr, ← hcq]
  · unfold HybridSearchEngine.search
    rw [List.pairwise_map]
    have hs : (List.insertionSort HybridSearchEngine.rerankRel
        ((List.insertionSort HybridSearchEngine.hsRel
          (cands.map (fun c => (c, HybridSearchEngine.combinedScore w c.semScore
            (HybridSearchEngine.lexScore query c.text))))).take k)).Pairwise
          HybridSearchEngine.rerankRel :=
      List.sorted_insertionSort HybridSearchEngine.rerankRel _
    have hs2 := hs.imp (fun hab => by
      rcases hab with h | ⟨h, -⟩
      · exact le_of_lt h
      · exact le_of_eq h.symm)
    exact pairwise_enum_of_pairwise hs2
  · unfold HybridSearchEngine.search
    rw [List.length_map, List.enum_length,
      (List.perm_insertionSort HybridSearchEngine.rerankRel _).length_eq,
      List.length_take,
      (List.perm_insertionSort HybridSearchEngine.hsRel _).length_eq,
      List.length_map]
  · have hms : (HybridSearchEngine.search query k w cands).map SearchResult.score
        = (List.insertionSort HybridSearchEngine.rerankRel
            ((List.insertionSort HybridSearchEngine.hsRel
              (cands.map (fun c => (c, HybridSearchEngine.combinedScore w c.semScore
                (HybridSearchEngine.lexScore query c.text))))).take k)).map Prod.snd := by
      unfold HybridSearchEngine.search
      rw [List.map_map]
      rw [show (SearchResult.score ∘ fun q : Nat × (HybridSearchEngine.Candidate × ℚ) =>
          ({ chunkId := q.2.1.chunkId, text := q.2.1.text, score := q.2.2,
             sourceMeta := q.2.1.source, rank := q.1 } : SearchResult))
          = (Prod.snd ∘ (Prod.snd : Nat × (HybridSearchEngine.Candidate × ℚ)
              → HybridSearchEngine.Candidate × ℚ)) from rfl]
      rw [← List.map_map, List.enum_map_snd]
    rw [hms]
    have h1 := (List.perm_insertionSort HybridSearchEngine.rerankRel
      ((List.insertionSort HybridSearchEngine.hsRel
        (cands.map (fun c => (c, HybridSearchEngine.combinedScore w c.semScore
          (HybridSearchEngine.lexScore query c.text))))).take k)).map Prod.snd
    refine (h1.append_right _).trans ?_
    rw [← List.map_append, List.take_append_drop]
    have h2 := (List.perm_insertionSort HybridSearchEngine.hsRel
      (cands.map (fun c => (c, HybridSearchEngine.combinedScore w c.semScore
        (HybridSearchEngine.lexScore query c.text))))).map Prod.snd
    refine h2.trans ?_
    rw [List.map_map]
    exact List.Perm.refl _
  · intro p hp r hr
    unfold HybridSearchEngine.search at hr
    obtain ⟨q, hq, hqr⟩ := List.mem_map.mp hr
    have hq2 := mem_of_mem_enum hq
    have hq3 := (List.perm_insertionSort HybridSearchEngine.rerankRel _).subset hq2
    have hsorted : List.Pairwise HybridSearchEngine.hsRel
        ((List.insertionSort HybridSearchEngine.hsRel
          (cands.map (fun c => (c, HybridSearchEngine.combinedScore w c.semScore
            (HybridSearchEngine.lexScore query c.text))))).take k
          ++ (List.insertionSort HybridSearchEngine.hsRel
            (cands.map (fun c => (c, HybridSearchEngine.combinedScore w c.semScore
              (HybridSearchEngine.lexScore query c.text))))).drop k) := by
      rw [List.take_append_drop]
      exact List.sorted_insertionSort HybridSearchEngine.hsRel _
    obtain ⟨-, -, hcross⟩ := List.pairwise_append.mp hsorted
    have hrel := hcross q.2 hq3 p hp
    have hle : p.2 ≤ q.2.2 := by
      rcases hrel with h | ⟨h, -⟩
      · exact le_of_lt h
      · exact le_of_eq h.symm
    rw [← hqr]
    exact hle

/-- Witness for C5 at the spec's hand-computable scenario: weight 7/10
over one exact-lexical-match low-semantic candidate and one
high-semantic no-overlap candidate; the evaluated ranking places the
semantic chunk (combined 63/100) above the lexical chunk (combined
37/100), exactly as the weighted formula dictates. -/
theorem HybridSearchEngine.search_combined_ranking_witness :
    ((0 : ℚ) ≤ 7/10 ∧ (7/10 : ℚ) ≤ 1)
    ∧ (HybridSearchEngine.search ["refund", "policy"] 5 (7/10)
        [⟨"lexical", ["refund", "policy"], "srcL", 1/10, 0⟩,
         ⟨"semantic", ["overview"], "srcS", 9/10, 0⟩]).Pairwise
        (fun a b => b.score ≤ a.score)
    ∧ (HybridSearchEngine.search ["refund", "policy"] 5 (7/10)
        [⟨"lexical", ["refund", "policy"], "srcL", 1/10, 0⟩,
         ⟨"semantic", ["overview"], "srcS", 9/10, 0⟩]).length
        = min 5 ([⟨"lexical", ["refund", "policy"], "srcL", 1/10, 0⟩,
            ⟨"semantic", ["overview"], "srcS", 9/10, 0⟩]
              : List HybridSearchEngine.Candidate).length
    ∧ (HybridSearchEngine.search ["refund", "policy"] 5 (7/10)
        [⟨"lexical", ["refund", "policy"], "srcL", 1/10, 0⟩,
         ⟨"semantic", ["overview"], "srcS", 9/10, 0⟩]).map
          (fun r => (r.chunkId, r.score))
        = [("semantic", 63/100), ("lexical", 37/100)] := by
  refine ⟨⟨by norm_num, by norm_num⟩,
    (HybridSearchEngine.search_combined_ranking ["refund", "policy"] 5 (7/10)
      [⟨"lexical", ["refund", "policy"], "srcL", 1/10, 0⟩,
       ⟨"semantic", ["overview"], "srcS", 9/10, 0⟩]
      ⟨by norm_num, by norm_num⟩).2.1,
    (HybridSearchEngine.search_combined_ranking ["refund", "policy"] 5 (7/10)
      [⟨"lexical", ["refund", "policy"], "srcL", 1/10, 0⟩,
       ⟨"semantic", ["overview"], "srcS", 9/10, 0⟩]
      ⟨by norm_num, by norm_num⟩).2.2.1,
    ?_⟩
  have hf1 : ((["refund", "policy"] : List String).filter
      (fun t => (["refund", "policy"] : List String).contains t)) = ["refund", "policy"] := by
    decide
  have hf2 : ((["refund", "policy"] : List String).filter
      (fun t => (["overview"] : List String).contains t)) = [] := by
    decide
  have hsL : HybridSearchEngine.combinedScore (7/10) (1/10)
      (HybridSearchEngine.lexScore ["refund", "policy"] ["refund", "policy"]) = 37/100 := by
    unfold HybridSearchEngine.lexScore
    rw [hf1]
    norm_num [HybridSearchEngine.combinedScore]
  have hsS : HybridSearchEngine.combinedScore (7/10) (9/10)
      (HybridSearchEngine.lexScore ["refund", "policy"] ["overview"]) = 63/100 := by
    unfold HybridSearchEngine.lexScore
    rw [hf2]
    norm_num [HybridSearchEngine.combinedScore]
  have hscored : ([⟨"lexical", ["refund", "policy"], "srcL", 1/10, 0⟩,
      ⟨"semantic", ["overview"], "srcS", 9/10, 0⟩] : List HybridSearchEngine.Candidate).map
      (fun c => (c, HybridSearchEngine.combinedScore (7/10) c.semScore
        (HybridSearchEngine.lexScore ["refund", "policy"] c.text)))
      = [((⟨"lexical", ["refund", "policy"], "srcL", 1/10, 0⟩
            : HybridSearchEngine.Candidate), 37/100),
         ((⟨"semantic", ["overview"], "srcS", 9/10, 0⟩
            : HybridSearchEngine.Candidate), 63/100)] := by
    simp only [List.map_cons, List.map_nil]
    rw [hsL, hsS]
  have hn1 : ¬ HybridSearchEngine.hsRel
      ((⟨"lexical", ["refund", "policy"], "srcL", 1/10, 0⟩
        : HybridSearchEngine.Candidate), 37/100)
      ((⟨"semantic", ["overview"], "srcS", 9/10, 0⟩
        : HybridSearchEngine.Candidate), 63/100) := by
    intro h
    rcases h with h | ⟨h, -⟩
    · norm_num at h
    · norm_num at h
  have hr1 : HybridSearchEngine.rerankRel
      ((⟨"semantic", ["overview"], "srcS", 9/10, 0⟩
        : HybridSearchEngine.Candidate), 63/100)
      ((⟨"lexical", ["refund", "policy"], "srcL", 1/10, 0⟩
        : HybridSearchEngine.Candidate), 37/100) :=
    Or.inl (by norm_num)
  have hsort1 : List.insertionSort HybridSearchEngine.hsRel
      [((⟨"lexical", ["refund", "policy"], "srcL", 1/10, 0⟩
          : HybridSearchEngine.Candidate), 37/100),
       ((⟨"semantic", ["overview"], "srcS", 9/10, 0⟩
          : HybridSearchEngine.Candidate), 63/100)]
      = [((⟨"semantic", ["overview"], "srcS", 9/10, 0⟩
            : HybridSearchEngine.Candidate), 63/100),
         ((⟨"lexical", ["refund", "policy"], "srcL", 1/10, 0⟩
            : HybridSearchEngine.Candidate), 37/100)] := by
    show (if HybridSearchEngine.hsRel
        ((⟨"lexical", ["refund", "policy"], "srcL", 1/10, 0⟩
          : HybridSearchEngine.Candidate), 37/100)
        ((⟨"semantic", ["overview"], "srcS", 9/10, 0⟩
          : HybridSearchEngine.Candidate), 63/100)
      then [((⟨"lexical", ["refund", "policy"], "srcL", 1/10, 0⟩
              : HybridSearchEngine.Candidate), 37/100),
            ((⟨"semantic", ["overview"], "srcS", 9/10, 0⟩
              : HybridSearchEngine.Candidate), 63/100)]
      else ((⟨"semantic", ["overview"], "srcS", 9/10, 0⟩
              : HybridSearchEngine.Candidate), 63/100)
        :: List.orderedInsert HybridSearchEngine.hsRel
            ((⟨"lexical", ["refund", "policy"], "srcL", 1/10, 0⟩
              : HybridSearchEngine.Candidate), 37/100) []) = _
    rw [if_neg hn1]
    rfl
  have hsort2 : List.insertionSort HybridSearchEngine.rerankRel
      [((⟨"semantic", ["overview"], "srcS", 9/10, 0⟩
          : HybridSearchEngine.Candidate), 63/100),
       ((⟨"lexical", ["refund", "policy"], "srcL", 1/10, 0⟩
          : HybridSearchEngine.Candidate), 37/100)]
      = [((⟨"semantic", ["overview"], "srcS", 9/10, 0⟩
            : HybridSearchEngine.Candidate), 63/100),
         ((⟨"lexical", ["refund", "policy"], "srcL", 1/10, 0⟩
            : HybridSearchEngine.Candidate), 37/100)] := by
    show (if HybridSearchEngine.rerankRel
        ((⟨"semantic", ["overview"], "srcS", 9/10, 0⟩
          : HybridSearchEngine.Candidate), 63/100)
        ((⟨"lexical", ["refund", "policy"], "srcL", 1/10, 0⟩
          : HybridSearchEngine.Candidate), 37/100)
      then [((⟨"semantic", ["overview"], "srcS", 9/10, 0⟩
              : HybridSearchEngine.Candidate), 63/100),
            ((⟨"lexical", ["refund", "policy"], "srcL", 1/10, 0⟩
              : HybridSearchEngine.Candidate), 37/100)]
      else ((⟨"lexical", ["refund", "policy"], "srcL", 1/10, 0⟩
              : HybridSearchEngine.Candidate), 37/100)
        :: List.orderedInsert HybridSearchEngine.rerankRel
            ((⟨"semantic", ["overview"], "srcS", 9/10, 0⟩
              : HybridSearchEngine.Candidate), 63/100) []) = _
    rw [if_pos hr1]
  unfold HybridSearchEngine.search
  rw [hscored, hsort1]
  rw [show ([((⟨"semantic", ["overview"], "srcS", 9/10, 0⟩
        : HybridSearchEngine.Candidate), 63/100),
      ((⟨"lexical", ["refund", "policy"], "srcL", 1/10, 0⟩
        : HybridSearchEngine.Candidate), 37/100)]
      : List (HybridSearchEngine.Candidate × ℚ)).take 5
    = [((⟨"semantic", ["overview"], "srcS", 9/10, 0⟩
          : HybridSearchEngine.Candidate), 63/100),
       ((⟨"lexical", ["refund", "policy"], "srcL", 1/10, 0⟩
          : HybridSearchEngine.Candidate), 37/100)] from rfl]
  rw [hsort2]
  rfl

/-! Helper lemmas for the vector index: Cauchy-Schwarz over rational
vectors and the behaviour of the cosine-order comparator. -/

theorem VectorIndex.dot_cons (a b : ℚ) (u v : List ℚ) :
    VectorIndex.dot (a :: u) (b :: v) = a * b + VectorIndex.dot u v := by
  simp [VectorIndex.dot]

theorem VectorIndex.normSq_nonneg (v : List ℚ) : 0 ≤ VectorIndex.normSq v := by
  induction v with
  | nil => simp [VectorIndex.normSq, VectorIndex.dot]
  | cons a v ih =>
    unfold VectorIndex.normSq at *
    rw [VectorIndex.dot_cons]
    exact add_nonneg (mul_self_nonneg a) ih

theorem VectorIndex.dot_sq_le (u : List ℚ) :
    ∀ v : List ℚ, u.length = v.length →
      (VectorIndex.dot u v) ^ 2 ≤ VectorIndex.normSq u * VectorIndex.normSq v := by
  induction u with
  | nil =>
    intro v h
    have hv : v = [] := List.length_eq_zero.mp h.symm
    subst hv
    simp [VectorIndex.dot, VectorIndex.normSq]
  | cons a u ih =>
    intro v h
    cases v with
    | nil => simp at h
    | cons b v =>
      have hd : (VectorIndex.dot u v) ^ 2 ≤ VectorIndex.dot u u * VectorIndex.dot v v := by
        have := ih v (by simpa using h)
        simpa [VectorIndex.normSq] using this
      have hA : (0 : ℚ) ≤ VectorIndex.dot u u := VectorIndex.normSq_nonneg u
      have hB : (0 : ℚ) ≤ VectorIndex.dot v v := VectorIndex.normSq_nonneg v
      unfold VectorIndex.normSq
      rw [VectorIndex.dot_cons, VectorIndex.dot_cons, VectorIndex.dot_cons]
      have key : (2 * a * b * VectorIndex.dot u v) ^ 2
          ≤ (a ^ 2 * VectorIndex.dot v v + b ^ 2 * VectorIndex.dot u u) ^ 2 := by
        nlinarith [sq_nonneg (a ^ 2 * VectorIndex.dot v v - b ^ 2 * VectorIndex.dot u u),
          mul_nonneg (sq_nonneg (a * b)) (sub_nonneg.mpr hd)]
      have hX : (0 : ℚ) ≤ a ^ 2 * VectorIndex.dot v v + b ^ 2 * VectorIndex.dot u u :=
        add_nonneg (mul_nonneg (sq_nonneg a) hB) (mul_nonneg (sq_nonneg b) hA)
      have key2 : 2 * a * b * VectorIndex.dot u v
          ≤ a ^ 2 * VectorIndex.dot v v + b ^ 2 * VectorIndex.dot u u := by
        rcases le_or_lt (2 * a * b * VectorIndex.dot u v)
          (a ^ 2 * VectorIndex.dot v v + b ^ 2 * VectorIndex.dot u u) with hle | hlt
        · exact hle
        · exfalso
          have hmul := mul_self_lt_mul_self hX hlt
          nlinarith [key]
      nlinarith [hd, key2, hA, hB]

theorem VectorIndex.simGE_self (v u : List ℚ) (h : v.length = u.length) :
    VectorIndex.simGE v v u := by
  have hA : (0 : ℚ) ≤ VectorIndex.dot v v := VectorIndex.normSq_nonneg v
  rcases lt_or_le (VectorIndex.dot v u) 0 with hy | hy
  · exact Or.inl ⟨hA, hy⟩
  · refine Or.inr (Or.inl ⟨hA, hy, ?_⟩)
    have hcs := VectorIndex.dot_sq_le v u h
    have hAq : VectorIndex.dot v v = VectorIndex.normSq v := rfl
    rw [hAq]
    nlinarith [hcs, VectorIndex.normSq_nonneg v]

theorem VectorIndex.simGE_not (v u : List ℚ) (h : v.length = u.length)
    (hv : 0 < VectorIndex.normSq v)
    (hnp : (VectorIndex.dot v u) ^ 2 = VectorIndex.normSq v * VectorIndex.normSq u →
      VectorIndex.dot v u < 0) :
    ¬ VectorIndex.simGE v u v := by
  intro hs
  have hA : (0 : ℚ) ≤ VectorIndex.normSq v := le_of_lt hv
  have hAq : VectorIndex.dot v v = VectorIndex.normSq v := rfl
  rcases hs with ⟨h1, h2⟩ | ⟨h1, h2, h3⟩ | ⟨h1, h2, h3⟩
  · rw [hAq] at h2
    exact absurd h2 (not_lt.mpr hA)
  · have hcs := VectorIndex.dot_sq_le v u h
    have hlt : (VectorIndex.dot v u) ^ 2
        < VectorIndex.normSq v * VectorIndex.normSq u := by
      rcases lt_or_eq_of_le hcs with hlt | heq
      · exact hlt
      · exact absurd (hnp heq) (not_lt.mpr h1)
    rw [hAq] at h3
    nlinarith [hlt, hv, h3]
  · rw [hAq] at h2
    exact absurd h2 (not_lt.mpr hA)

theorem insertionSort_head_dominant {α : Type} (r : α → α → Prop) [DecidableRel r] :
    ∀ (l : List α) (c : α), c ∈ l → (∀ u ∈ l, r c u) → (∀ u ∈ l, u ≠ c → ¬ r u c) →
      (List.insertionSort r l).head? = some c := by
  intro l
  induction l with
  | nil => intro c hc _ _; exact absurd hc (List.not_mem_nil c)
  | cons a l ih =>
    intro c hc hdom hstrict
    show (List.orderedInsert r a (List.insertionSort r l)).head? = some c
    by_cases hcl : c ∈ l
    · have hh := ih c hcl (fun u hu => hdom u (List.mem_cons_of_mem a hu))
        (fun u hu => hstrict u (List.mem_cons_of_mem a hu))
      cases hs : List.insertionSort r l with
      | nil => rw [hs] at hh; exact absurd hh (by simp)
      | cons h0 t =>
        rw [hs] at hh
        simp only [List.head?_cons, Option.some.injEq] at hh
        subst hh
        show (if r a h0 then a :: h0 :: t else h0 :: List.orderedInsert r a t).head? = some h0
        by_cases hr : r a h0
        · rw [if_pos hr]
          by_cases hac : a = h0
          · rw [hac]
            rfl
          · exact absurd hr (hstrict a (List.mem_cons_self a l) hac)
        · rw [if_neg hr]
          rfl
    · have hca : c = a := by
        rcases List.mem_cons.mp hc with h | h
        · exact h
        · exact absurd h hcl
      subst hca
      cases hs : List.insertionSort r l with
      | nil => rfl
      | cons b t =>
        have hb2 : b ∈ l := (List.perm_insertionSort r l).subset (by rw [hs]; exact List.mem_cons_self b t)
        have hrb : r c b := hdom b (List.mem_cons_of_mem c hb2)
        show (if r c b then c :: b :: t else b :: List.orderedInsert r c t).head? = some c
        rw [if_pos hrb]
        rfl

theorem head?_take {α : Type} {k : Nat} (hk : 1 ≤ k) (l : List α) :
    (l.take k).head? = l.head? := by
  cases k with
  | zero => omega
  | succ k => cases l <;> rfl

/-- C6 (amended): after `add` upserts an embedded chunk with a nonzero
vector of the index dimension, searching with that chunk's own vector
returns at rank 0 a chunk with the inserted chunk-id, whose score
`(cos+1)/2` equals 1 ≥ 0.99 — provided no other stored vector is
positively parallel to the query (an exact cosine tie, which the
spec's sequence-index/chunk-id tie-break may rank first, as the
counterexample shows). -/
theorem VectorIndex.add_search_self (idx : VectorIndex.Index)
    (c : VectorIndex.EmbeddedChunk) (idx2 : VectorIndex.Index) (k : Nat)
    (hadd : VectorIndex.add idx [c] = Except.ok idx2)
    (hk : 1 ≤ k)
    (hv : 0 < VectorIndex.normSq c.vector)
    (hdim : ∀ e ∈ idx.entries, e.vector.length = idx.dim)
    (hpar : ∀ e ∈ idx.entries, e.chunkId ≠ c.chunkId →
      (VectorIndex.dot c.vector e.vector) ^ 2
          = VectorIndex.normSq c.vector * VectorIndex.normSq e.vector →
        VectorIndex.dot c.vector e.vector < 0) :
    ∃ e, (VectorIndex.search idx2 c.vector k).head? = some e
      ∧ e.chunkId = c.chunkId
      ∧ (0.99 : ℝ) ≤ VectorIndex.simScore c.vector e.vector := by
  unfold VectorIndex.add at hadd
  by_cases hall : [c].all (fun c2 => c2.vector.length == idx.dim) = true
  · rw [if_pos hall] at hadd
    have hlen : c.vector.length = idx.dim := by
      simpa using hall
    have hidx2 : idx2.entries
        = c :: idx.entries.filter (fun e => e.chunkId != c.chunkId) := by
      injection hadd with h
      rw [← h]
      rfl
    have hdom : ∀ u ∈ idx2.entries, VectorIndex.entryRel c.vector c u := by
      intro u hu
      rw [hidx2] at hu
      rcases List.mem_cons.mp hu with hu0 | hu1
      · rw [hu0]
        exact Or.inr ⟨VectorIndex.simGE_self c.vector c.vector rfl,
          VectorIndex.simGE_self c.vector c.vector rfl, Or.inr ⟨rfl, le_refl _⟩⟩
      · have hmem := List.mem_of_mem_filter hu1
        have hne : u.chunkId ≠ c.chunkId := by
          have hp := List.of_mem_filter hu1
          simpa [bne_iff_ne] using hp
        have hlu : c.vector.length = u.vector.length := by
          rw [hlen, hdim u hmem]
        exact Or.inl ⟨VectorIndex.simGE_self c.vector u.vector hlu,
          VectorIndex.simGE_not c.vector u.vector hlu hv (hpar u hmem hne)⟩
    have hstrict : ∀ u ∈ idx2.entries, u ≠ c → ¬ VectorIndex.entryRel c.vector u c := by
      intro u hu hne hrel
      rw [hidx2] at hu
      rcases List.mem_cons.mp hu with hu0 | hu1
      · exact hne hu0
      · have hmem := List.mem_of_mem_filter hu1
        have hneid : u.chunkId ≠ c.chunkId := by
          have hp := List.of_mem_filter hu1
          simpa [bne_iff_ne] using hp
        have hlu : c.vector.length = u.vector.length := by
          rw [hlen, hdim u hmem]
        have hnot := VectorIndex.simGE_not c.vector u.vector hlu hv (hpar u hmem hneid)
        rcases hrel with ⟨h1, -⟩ | ⟨h1, -, -⟩ <;> exact hnot h1
    have hcmem : c ∈ idx2.entries := by
      rw [hidx2]
      exact List.mem_cons_self c _
    have hhead := insertionSort_head_dominant (VectorIndex.entryRel c.vector)
      idx2.entries c hcmem hdom hstrict
    refine ⟨c, ?_, rfl, ?_⟩
    · unfold VectorIndex.search
      rw [head?_take hk, hhead]
    · have hsc : VectorIndex.simScore c.vector c.vector = 1 := by
        unfold VectorIndex.simScore VectorIndex.cosSim
        have hA : (0 : ℝ) < ((VectorIndex.normSq c.vector : ℚ) : ℝ) := by
          exact_mod_cast hv
        have hdotA : VectorIndex.dot c.vector c.vector = VectorIndex.normSq c.vector := rfl
        rw [hdotA, Real.mul_self_sqrt (le_of_lt hA), div_self (ne_of_gt hA)]
        norm_num
      rw [hsc]
      norm_num
  · rw [if_neg hall] at hadd
    exact absurd hadd (by simp)

/-- C6 counterexample: with chunk `a` (sequence-index 0, vector (1,0))
already stored, adding chunk `b` (sequence-index 1, vector (2,0)) and
immediately searching with `b`'s own vector returns `a` at rank 0, not
`b`: the two vectors are positively parallel, the cosine scores tie at
1, and the spec's tie-break (lower sequence-index) prefers `a`. -/
theorem VectorIndex.add_search_self_counterexample :
    VectorIndex.add ⟨2, [⟨"a", 0, [1, 0], []⟩]⟩ [⟨"b", 1, [2, 0], []⟩]
        = Except.ok ⟨2, [⟨"b", 1, [2, 0], []⟩, ⟨"a", 0, [1, 0], []⟩]⟩
    ∧ ∀ e, (VectorIndex.search ⟨2, [⟨"b", 1, [2, 0], []⟩, ⟨"a", 0, [1, 0], []⟩]⟩
        [2, 0] 5).head? = some e → e.chunkId ≠ ("b" : String) := by
  constructor
  · rfl
  · intro e he
    have hnot : ¬ VectorIndex.entryRel ([2, 0] : List ℚ)
        ⟨"b", 1, [2, 0], []⟩ ⟨"a", 0, [1, 0], []⟩ := by
      intro h
      have hba : ¬ VectorIndex.tieBreak ⟨"b", 1, [2, 0], []⟩ ⟨"a", 0, [1, 0], []⟩ := by
        rintro (hlt | ⟨heq, -⟩)
        · exact absurd hlt (by simp)
        · exact absurd heq (by simp)
      have hsim : VectorIndex.simGE ([2, 0] : List ℚ) [1, 0] [2, 0] := by
        refine Or.inr (Or.inl ⟨?_, ?_, ?_⟩) <;>
          norm_num [VectorIndex.dot, VectorIndex.normSq]
      rcases h with ⟨-, hn⟩ | ⟨-, -, ht⟩
      · exact hn hsim
      · exact hba ht
    have hsort : List.insertionSort (VectorIndex.entryRel ([2, 0] : List ℚ))
        [⟨"b", 1, [2, 0], []⟩, ⟨"a", 0, [1, 0], []⟩]
        = [(⟨"a", 0, [1, 0], []⟩ : VectorIndex.EmbeddedChunk), ⟨"b", 1, [2, 0], []⟩] := by
      show (if VectorIndex.entryRel ([2, 0] : List ℚ) ⟨"b", 1, [2, 0], []⟩ ⟨"a", 0, [1, 0], []⟩
        then _ else (⟨"a", 0, [1, 0], []⟩ : VectorIndex.EmbeddedChunk)
          :: List.orderedInsert (VectorIndex.entryRel ([2, 0] : List ℚ)) ⟨"b", 1, [2, 0], []⟩ []) = _
      rw [if_neg hnot]
      rfl
    unfold VectorIndex.search at he
    rw [hsort] at he
    simp only [List.take, List.head?_cons, Option.some.injEq] at he
    rw [← he]
    simp

/-- Witness for C6 (amended) at a one-dimensional index that was empty
before the insertion. -/
theorem VectorIndex.add_search_self_witness :
    (VectorIndex.add ⟨1, []⟩ [⟨"c0", 0, [1], []⟩]
        = Except.ok ⟨1, [⟨"c0", 0, [1], []⟩]⟩
      ∧ 1 ≤ 1 ∧ 0 < VectorIndex.normSq [1])
    ∧ ∃ e, (VectorIndex.search ⟨1, [⟨"c0", 0, [1], []⟩]⟩
          ((⟨"c0", 0, [1], []⟩ : VectorIndex.EmbeddedChunk).vector) 1).head? = some e
        ∧ e.chunkId = (⟨"c0", 0, [1], []⟩ : VectorIndex.EmbeddedChunk).chunkId
        ∧ (0.99 : ℝ) ≤ VectorIndex.simScore
            ((⟨"c0", 0, [1], []⟩ : VectorIndex.EmbeddedChunk).vector) e.vector :=
  ⟨⟨rfl, le_refl 1, by norm_num [VectorIndex.normSq, VectorIndex.dot]⟩,
   VectorIndex.add_search_self ⟨1, []⟩ ⟨"c0", 0, [1], []⟩ ⟨1, [⟨"c0", 0, [1], []⟩]⟩ 1 rfl
     (le_refl 1) (by norm_num [VectorIndex.normSq, VectorIndex.dot])
     (fun e he => absurd he (List.not_mem_nil e))
     (fun e he => absurd he (List.not_mem_nil e))⟩
